import Mathlib

/-!
Verification development for the fastapi-filterstyles library
(src/fastapi_filterstyles/api.py and src/fastapi_filterstyles/fields.py).

Python strings are modelled as lists of characters (PyStr).  The wire
decoding functions (the dependency closures produced by delimited_filter
and deep_object_filter), the validation pattern built by the signature
synthesizer, and the schema post-processor update_deep_objects are
translated from the source.  The final construction step
filter_cls(**params) delegates to the pydantic v1 validation engine, an
external collaborator; it is modelled by mkFilter / mkBaseFilter following
pydantic v1 documented semantics: fields are validated in declaration
order, lookups use the field alias when one is declared (default config,
population by field name disabled), extra keys are ignored (default
Config.extra), all field errors are aggregated into one ValidationError,
and a model's truthiness (BaseFilter.__bool__) is the nonemptiness of
__fields_set__, the set of fields explicitly provided to the constructor.
-/

/-- A Python string, modelled as the list of its characters. -/
abbrev PyStr : Type := List Char

/-- Convenience conversion from a Lean string literal to a PyStr. -/
def lit (s : String) : PyStr := s.data

/-- Model of the Python expression val.split(c) for a one-character
separator c: leftmost splitting, empty segments preserved, and the
result is never empty. -/
def splitChar (c : Char) : List Char → List (List Char)
  | [] => [[]]
  | d :: ds =>
    if d = c then [] :: splitChar c ds
    else
      match splitChar c ds with
      | [] => [[d]]
      | seg :: segs => (d :: seg) :: segs

/-- Model of the Python expression k.split with the two-character
separator of two underscores, as used by the deep-object dependency:
leftmost, non-overlapping occurrences split the string. -/
def splitDunder : List Char → List (List Char)
  | [] => [[]]
  | [d] => [[d]]
  | d :: e :: rest =>
    if d = '_' ∧ e = '_' then [] :: splitDunder rest
    else
      match splitDunder (e :: rest) with
      | [] => [[d]]
      | seg :: segs => (d :: seg) :: segs

/-- Whether the character c occurs in the string. -/
def containsChar (c : Char) (s : List Char) : Bool := s.any (fun d => d = c)

/-- Whether two consecutive underscores occur in the string. -/
def hasDunder : List Char → Bool
  | [] => false
  | [_d] => false
  | d :: e :: rest => (d = '_' ∧ e = '_' : Bool) || hasDunder (e :: rest)

/-- Lookup in a Python dict modelled as an insertion-ordered
association list. -/
def dget {α : Type} (d : List (PyStr × α)) (k : PyStr) : Option α :=
  (d.find? (fun p => p.1 == k)).map (fun p => p.2)

/-- Assignment d[k] = v on a Python dict modelled as an
insertion-ordered association list: an existing key keeps its position
and gets the new value, a new key is appended at the end. -/
def dset {α : Type} : List (PyStr × α) → PyStr → α → List (PyStr × α)
  | [], k, v => [(k, v)]
  | p :: tl, k, v => if p.1 == k then (k, v) :: tl else p :: dset tl k v

/-- Decimal rendering of a natural number, used for the list index that
pydantic puts into the location of a per-item validation error. -/
def natLit (n : Nat) : PyStr := (toString n).data

/-- A value stored in a per-attribute operations dict, or passed as one
raw keyword argument to a dependency: Python None, a bool (flag
operators), a raw string, or a list of raw strings. -/
inductive OpEntry : Type where
  | onone : OpEntry
  | obool (b : Bool) : OpEntry
  | ostr (s : PyStr) : OpEntry
  | olist (vs : List PyStr) : OpEntry
  deriving DecidableEq, Repr

/-- A value in the params dict handed to filter_cls(**params): either a
nested operator dict (for a filter-typed attribute) or a plain scalar
value passed through. -/
inductive ParamVal : Type where
  | pdict (m : List (PyStr × OpEntry)) : ParamVal
  | pnone : ParamVal
  | pbool (b : Bool) : ParamVal
  | pstr (s : PyStr) : ParamVal
  | plist (vs : List PyStr) : ParamVal
  deriving DecidableEq, Repr

/-- Embeds a raw keyword-argument value into the params dict unchanged,
as the decoders do for plain (non-filter) fields. -/
def OpEntry.toParam : OpEntry → ParamVal
  | .onone => .pnone
  | .obool b => .pbool b
  | .ostr s => .pstr s
  | .olist vs => .plist vs

/-- An uncaught Python runtime exception raised while decoding. -/
inductive PyErr : Type where
  | keyError (k : PyStr) : PyErr
  | typeError : PyErr
  | attrError : PyErr
  deriving DecidableEq, Repr

/-- Result of a decoding step that can raise an uncaught exception. -/
inductive DecodeResult (α : Type) : Type where
  | ok (a : α) : DecodeResult α
  | err (e : PyErr) : DecodeResult α
  deriving DecidableEq, Repr

instance : Monad DecodeResult where
  pure := .ok
  bind := fun x f => match x with | .ok a => f a | .err e => .err e

/-- One entry of pydantic ValidationError.errors(): the error location
(field path) and the error type tag. -/
structure FieldError : Type where
  loc : List PyStr
  etype : String
  deriving DecidableEq, Repr

/-- The scalar type underlying a value-bearing operator field, with its
item coercion check (pydantic type validation of one raw string). -/
inductive VType : Type where
  | tstr : VType
  | tint : VType
  deriving DecidableEq, Repr

/-- Whether a raw string is accepted by Python int() coercion: an
optional sign followed by one or more decimal digits. -/
def isIntStr : PyStr → Bool
  | [] => false
  | '-' :: ds => decide (ds ≠ []) && ds.all Char.isDigit
  | '+' :: ds => decide (ds ≠ []) && ds.all Char.isDigit
  | ds => ds.all Char.isDigit

/-- Whether one raw string item passes coercion to the given type,
modelling pydantic scalar validation (int() coercion for tint). -/
def VType.validItem : VType → PyStr → Bool
  | .tstr, _ => true
  | .tint, s => isIntStr s

/-- One declared operator field of a BaseFilter subclass (fields.py):
its attribute name, optional wire alias, whether it carries the
flag=True marker (FlagField), and its item type. -/
structure SubField : Type where
  name : PyStr
  walias : Option PyStr
  flag : Bool
  vtype : VType
  deriving DecidableEq, Repr

/-- The key under which pydantic populates the field: the alias when
one is declared, else the field name (default pydantic v1 config). -/
def SubField.key (sf : SubField) : PyStr := sf.walias.getD sf.name

/-- A BaseFilter subclass: its declared operator fields in declaration
order and its default_operator class variable. -/
structure FilterType : Type where
  fields : List SubField
  default_operator : PyStr
  deriving DecidableEq, Repr

/-- Lookup of a field by its attribute name, modelling access to the
type's __fields__ mapping. -/
def FilterType.lookup (ft : FilterType) (n : PyStr) : Option SubField :=
  ft.fields.find? (fun sf => sf.name == n)

/-- The test op in filter_fields and filter_fields[op].field_info.extra.get
flag performed by the delimited dependency (api.py line 40). -/
def FilterType.isFlag (ft : FilterType) (n : PyStr) : Bool :=
  match ft.lookup n with
  | some sf => sf.flag
  | none => false

/-- The default operators list the signature synthesizer builds when no
override is given (api.py lines 71-77): the alias or name of each
declared operator field. -/
def FilterType.defaultOperators (ft : FilterType) : List PyStr :=
  ft.fields.map SubField.key

/-- One declared field of the outer filter model class: either typed as
a BaseFilter subclass or a plain pass-through field. -/
inductive FieldKind : Type where
  | filt (ft : FilterType) : FieldKind
  | plain : FieldKind
  deriving DecidableEq, Repr

/-- One field of the outer filter model class. -/
structure OuterField : Type where
  name : PyStr
  kind : FieldKind
  deriving DecidableEq, Repr

/-- Whether the field is typed as a BaseFilter subclass. -/
def OuterField.isFilter : OuterField → Bool
  | ⟨_, .filt _⟩ => true
  | ⟨_, .plain⟩ => false

/-- The outer filter model class handed to the dependency factories:
its declared fields in declaration order. -/
structure FilterCls : Type where
  fields : List OuterField
  deriving DecidableEq, Repr

/-- The test k in filter_fields of the deep-object dependency: whether
k names a filter-typed attribute of the class. -/
def FilterCls.isFilterAttr (fc : FilterCls) (k : PyStr) : Bool :=
  fc.fields.any (fun f => f.isFilter && f.name == k)

/-- The final three lines of the delimited token loop (api.py 48-50):
append fil to the bucket operations[op], creating the bucket when the
key is absent.  When the slot already holds the flag marker True,
Python's operations[op].append raises AttributeError. -/
def bucketAppend (ops : List (PyStr × OpEntry)) (op fil : PyStr) :
    DecodeResult (List (PyStr × OpEntry)) :=
  match dget ops op with
  | none => .ok (dset ops op (.olist [fil]))
  | some (.olist l) => .ok (dset ops op (.olist (l ++ [fil])))
  | some _ => .err .attrError

/-- One iteration of the delimited dependency's token loop (api.py
36-50): split the raw string on the delimiter, take the first segment
as candidate operator; a registered flag operator records True; a token
with no delimiter falls back to the default operator; otherwise the
last segment is appended to the operator's bucket. -/
def decodeToken (ft : FilterType) (ops : List (PyStr × OpEntry)) (val : PyStr) :
    DecodeResult (List (PyStr × OpEntry)) :=
  let arr := splitChar ':' val
  let op0 := arr.headD []
  if ft.isFlag op0 then .ok (dset ops op0 (.obool true))
  else
    let op := if arr.length == 1 then ft.default_operator else op0
    let fil := arr.getLastD []
    bucketAppend ops op fil

/-- The delimited dependency's full token loop over the raw strings
supplied for one attribute, starting from the empty operations dict. -/
def decodeTokens (ft : FilterType) (ts : List PyStr) :
    DecodeResult (List (PyStr × OpEntry)) :=
  ts.foldlM (decodeToken ft) []

/-- One step of the delimited dependency's field loop (api.py 22-50):
a plain field passes its raw argument through, a filter field gets an
operations dict decoded from its list of raw strings (the empty dict
when the argument is None or absent).  A raw string argument is
iterated character by character, as Python iteration over a str would. -/
def delimField (kwargs : List (PyStr × OpEntry))
    (params : List (PyStr × ParamVal)) (f : OuterField) :
    DecodeResult (List (PyStr × ParamVal)) :=
  let arg := (dget kwargs f.name).getD .onone
  match f.kind with
  | .plain => .ok (dset params f.name arg.toParam)
  | .filt ft =>
    match arg with
    | .onone => .ok (dset params f.name (.pdict []))
    | .olist ts =>
      match decodeTokens ft ts with
      | .ok ops => .ok (dset params f.name (.pdict ops))
      | .err e => .err e
    | .ostr s =>
      match decodeTokens ft (s.map (fun ch => [ch])) with
      | .ok ops => .ok (dset params f.name (.pdict ops))
      | .err e => .err e
    | .obool _ => .err .typeError

/-- The params-building phase of the delimited dependency (api.py
20-50): the field loop over the declared fields of the class. -/
def delimDecodeParams (fc : FilterCls) (kwargs : List (PyStr × OpEntry)) :
    DecodeResult (List (PyStr × ParamVal)) :=
  fc.fields.foldlM (delimField kwargs) []

/-- One step of the deep-object dependency's kwargs loop (api.py
167-174): kwargs whose key names a filter attribute or whose value is
None are skipped; a key without the double-underscore separator is
copied through; otherwise the value is written into
params[first segment][second segment], which raises KeyError when the
first segment is not a params key and TypeError when that params entry
is not a dict. -/
def deepStep (fc : FilterCls) (params : List (PyStr × ParamVal))
    (kv : PyStr × OpEntry) : DecodeResult (List (PyStr × ParamVal)) :=
  if fc.isFilterAttr kv.1 = true ∨ kv.2 = .onone then .ok params
  else
    let sk := splitDunder kv.1
    if sk.length == 1 then .ok (dset params kv.1 kv.2.toParam)
    else
      let k0 := sk.headD []
      let k1 := (sk.get? 1).getD []
      match dget params k0 with
      | some (.pdict m) => .ok (dset params k0 (.pdict (dset m k1 kv.2)))
      | some _ => .err .typeError
      | none => .err (.keyError k0)

/-- The initial params dict of the deep-object dependency (api.py
165-166): every filter attribute starts as an empty dict. -/
def deepInit (fc : FilterCls) : List (PyStr × ParamVal) :=
  fc.fields.foldl
    (fun acc f => if f.isFilter then acc ++ [(f.name, ParamVal.pdict [])] else acc) []

/-- The params-building phase of the deep-object dependency (api.py
163-174). -/
def deepDecodeParams (fc : FilterCls) (kwargs : List (PyStr × OpEntry)) :
    DecodeResult (List (PyStr × ParamVal)) :=
  kwargs.foldlM (deepStep fc) (deepInit fc)

/-- Pydantic validation of one operator field value, given the value
found in the operations dict under the field's population key.  A
FlagField (Optional Literal True) admits exactly True or None; a
value-bearing DefaultList field admits a list whose items pass the
item-type coercion, with one error per failing item.  The second
component is the validated value stored on the instance. -/
def validateSub (attr : PyStr) (sf : SubField) (v : OpEntry) :
    List FieldError × OpEntry :=
  if sf.flag then
    match v with
    | .obool true => ([], .obool true)
    | .onone => ([], .onone)
    | .obool false => ([⟨[attr, sf.key], "value_error.const"⟩], .onone)
    | .ostr _ => ([⟨[attr, sf.key], "value_error.const"⟩], .onone)
    | .olist _ => ([⟨[attr, sf.key], "value_error.const"⟩], .onone)
  else
    match v with
    | .olist vs =>
      let errs := (List.range vs.length).filterMap
        (fun i =>
          if sf.vtype.validItem ((vs.get? i).getD []) then none
          else some (⟨[attr, sf.key, natLit i], "type_error"⟩ : FieldError))
      (errs, .olist vs)
    | .onone => ([⟨[attr, sf.key], "type_error.none.not_allowed"⟩], .onone)
    | .obool _ => ([⟨[attr, sf.key], "type_error.list"⟩], .onone)
    | .ostr _ => ([⟨[attr, sf.key], "type_error.list"⟩], .onone)

/-- The default value pydantic installs for an operator field that was
not supplied: the empty list for a DefaultList field, None for a
FlagField. -/
def SubField.defaultVal (sf : SubField) : OpEntry :=
  if sf.flag then .onone else .olist []

/-- A validated BaseFilter instance: field values in declaration order
plus the set of fields that were explicitly provided
(pydantic __fields_set__). -/
structure FilterInst : Type where
  vals : List (PyStr × OpEntry)
  fieldsSet : List PyStr
  deriving DecidableEq, Repr

/-- Pydantic construction of a BaseFilter subclass from an operations
dict: fields are looked up by their population key in declaration
order, extra keys are ignored (default pydantic v1 config), and all
field errors are collected. -/
def mkBaseFilter (attr : PyStr) (ft : FilterType) (m : List (PyStr × OpEntry)) :
    List FieldError × FilterInst :=
  ((ft.fields.map
      (fun sf =>
        match dget m sf.key with
        | none => []
        | some v => (validateSub attr sf v).1)).flatten,
   ⟨ft.fields.map
      (fun sf =>
        (sf.name,
         match dget m sf.key with
         | none => sf.defaultVal
         | some v => (validateSub attr sf v).2)),
    (ft.fields.filter (fun sf => (dget m sf.key).isSome)).map SubField.name⟩)

/-- A value held by the outer validated filter model instance. -/
inductive OuterVal : Type where
  | ofilt (i : FilterInst) : OuterVal
  | oplain (v : ParamVal) : OuterVal
  deriving DecidableEq, Repr

/-- The outer validated filter model instance. -/
structure OuterInst : Type where
  vals : List (PyStr × OuterVal)
  fieldsSet : List PyStr
  deriving DecidableEq, Repr

/-- Pydantic validation of one declared field of the outer model
against the assembled params dict: a plain field passes through (its
own validation is the framework's concern); a filter field requires a
dict value, validated as the nested BaseFilter model; a missing filter
field is a missing-required-field error.  Returns the field errors,
the resulting instance entry, and whether the field counts as
explicitly set. -/
def validateOuterField (f : OuterField) (params : List (PyStr × ParamVal)) :
    List FieldError × (PyStr × OuterVal) × Bool :=
  match f.kind with
  | .plain =>
    match dget params f.name with
    | some v => ([], (f.name, .oplain v), true)
    | none => ([], (f.name, .oplain .pnone), false)
  | .filt ft =>
    match dget params f.name with
    | some (.pdict m) =>
      let r := mkBaseFilter f.name ft m
      (r.1, (f.name, .ofilt r.2), true)
    | some .pnone => ([⟨[f.name], "type_error.none.not_allowed"⟩], (f.name, .oplain .pnone), true)
    | some _ => ([⟨[f.name], "type_error.dict"⟩], (f.name, .oplain .pnone), true)
    | none => ([⟨[f.name], "value_error.missing"⟩], (f.name, .oplain .pnone), false)

/-- The aggregated error list of pydantic ValidationError.errors() for
filter_cls(**params): the concatenation, in declaration order, of
every field's individual errors. -/
def mkFilterErrors (fc : FilterCls) (params : List (PyStr × ParamVal)) :
    List FieldError :=
  (fc.fields.map (fun f => (validateOuterField f params).1)).flatten

/-- Result of filter_cls(**params): the validated instance, or the
aggregated ValidationError. -/
inductive BuildResult : Type where
  | built (i : OuterInst) : BuildResult
  | failed (es : List FieldError) : BuildResult
  deriving DecidableEq, Repr

/-- Pydantic construction of the outer filter model from the assembled
params dict: succeeds with the validated instance exactly when no
field produced an error, otherwise fails with every field error
aggregated into one ValidationError. -/
def mkFilter (fc : FilterCls) (params : List (PyStr × ParamVal)) : BuildResult :=
  let errs := mkFilterErrors fc params
  if errs = [] then
    .built
      ⟨fc.fields.map (fun f => (validateOuterField f params).2.1),
       (fc.fields.filter (fun f => (validateOuterField f params).2.2)).map OuterField.name⟩
  else .failed errs

/-- The structured error raised as HTTPException(status_code=422,
detail=e.errors()) by both dependencies. -/
structure HTTPError : Type where
  status : Nat
  detail : List FieldError
  deriving DecidableEq, Repr

/-- Outcome of one dependency invocation: a validated instance, an
HTTPException carrying the 422 detail, or an uncaught Python runtime
error escaping the dependency. -/
inductive DepResult : Type where
  | success (i : OuterInst) : DepResult
  | httpError (e : HTTPError) : DepResult
  | pyError (e : PyErr) : DepResult
  deriving DecidableEq, Repr

/-- The try/except around filter_cls(**params) shared by both
dependencies (api.py 51-56 and 175-180): a ValidationError becomes an
HTTPException with status 422 and detail e.errors(). -/
def runConstruct (fc : FilterCls) (params : List (PyStr × ParamVal)) :
    DepResult :=
  match mkFilter fc params with
  | .built i => .success i
  | .failed es => .httpError ⟨422, es⟩

/-- The dependency closure produced by delimited_filter (api.py 20-56). -/
def delimDependency (fc : FilterCls) (kwargs : List (PyStr × OpEntry)) : DepResult :=
  match delimDecodeParams fc kwargs with
  | .err e => .pyError e
  | .ok params => runConstruct fc params

/-- The dependency closure produced by deep_object_filter (api.py
163-180). -/
def deepDependency (fc : FilterCls) (kwargs : List (PyStr × OpEntry)) : DepResult :=
  match deepDecodeParams fc kwargs with
  | .err e => .pyError e
  | .ok params => runConstruct fc params

/-- Membership in the language of the validation pattern the signature
synthesizer attaches to a delimited filter parameter (api.py line 90),
built as an anchored regex: an optional prefix consisting of one
allowed operator followed by the delimiter, then one or more
non-delimiter characters.  Operator names are plain identifiers
(no regex metacharacters, no delimiter), so the regex language is
exactly this. -/
def patternAccepts (operators : List PyStr) (s : PyStr) : Bool :=
  (!s.isEmpty && !containsChar ':' s) ||
  operators.any
    (fun op =>
      (op ++ [':']).isPrefixOf s &&
      (let rest := s.drop (op.length + 1)
       !rest.isEmpty && !containsChar ':' rest))

/-- BaseFilter.__bool__ (fields.py 15-16): truthiness of the per
attribute filter instance is nonemptiness of __fields_set__. -/
def FilterInst.present (i : FilterInst) : Bool := !i.fieldsSet.isEmpty

/-- Whether an operator slot holds a non-empty decoded filter value: a
flag set to True or a bucket with at least one value. -/
def OpEntry.isNonemptyBucket : OpEntry → Bool
  | .obool true => true
  | .olist (_ :: _) => true
  | _ => false

/-- The answer to the question whether any filter is present at all:
the logical OR, over the filter-typed attributes of the instance, of
the per-attribute BaseFilter.__bool__. -/
def OuterInst.anyFilter (o : OuterInst) : Bool :=
  o.vals.any
    (fun p =>
      match p.2 with
      | .ofilt i => i.present
      | .oplain _ => false)

/-- The value the framework extracts for the deep-object wire
parameter attribute bracket op equals v.  Modelled from the synthesized
signature (api.py 129-144): the parameter for a value-bearing operator
carries the operator's list annotation, so the framework collects the
raw occurrences into a list; the parameter for a flag operator carries
the stripped boolean literal annotation, so only the literal true
value is extractable.  None means the wire value is rejected by the
framework before the dependency runs. -/
def wireDeepVal (sf : SubField) (v : PyStr) : Option OpEntry :=
  if sf.flag then
    if v = lit "true" then some (.obool true) else none
  else
    if sf.vtype.validItem v then some (.olist [v]) else none

/-- The deep-object documentation payload attached to a synthesized
umbrella parameter: the keys of the restricted schema properties. -/
structure DeepInfo : Type where
  props : List PyStr
  deriving DecidableEq, Repr

/-- One resolved dependency query parameter of a registered route, as
inspected by update_deep_objects: its name and, when its annotation
carries the deep_object marker, the attached schema information. -/
structure QP : Type where
  name : PyStr
  deep : Option DeepInfo
  deriving DecidableEq, Repr

/-- One wire-level parameter descriptor injected into a route's
openapi_extra by update_deep_objects. -/
structure DocParam : Type where
  pname : PyStr
  pin : String
  pstyle : String
  pschemaProps : List PyStr
  pdescOps : List PyStr
  deriving DecidableEq, Repr

/-- A registered application route: an APIRoute with its resolved
dependency query parameters and its openapi_extra slot, or a non-API
route that update_deep_objects skips. -/
inductive AppRoute : Type where
  | api (dependencies : List (List QP)) (openapiExtra : Option (List DocParam)) : AppRoute
  | nonApi : AppRoute
  deriving DecidableEq, Repr

/-- The parameters list update_deep_objects assembles for one route
(api.py 195-210): one descriptor per deep-object query parameter found
among the route's resolved dependencies, with location query, style
deepObject, the restricted schema, and a description enumerating the
allowed operator keys. -/
def routeDocParams (dependencies : List (List QP)) : List DocParam :=
  (dependencies.map
    (fun dep =>
      dep.filterMap
        (fun qp => qp.deep.map
          (fun di => (⟨qp.name, "query", "deepObject", di.props, di.props⟩ : DocParam))))).flatten

/-- The per-route action of update_deep_objects (api.py 192-212):
non-API routes are skipped, and openapi_extra is overwritten only when
the assembled parameters list is non-empty. -/
def updateRoute : AppRoute → AppRoute
  | .nonApi => .nonApi
  | .api deps extra =>
    let parameters := routeDocParams deps
    if parameters.isEmpty then .api deps extra else .api deps (some parameters)

/-- update_deep_objects (api.py 187-212) over the app's route list. -/
def update_deep_objects (routes : List AppRoute) : List AppRoute :=
  routes.map updateRoute

/-- StringFilter from fields.py: its ten operator fields in declaration
order, the membership operator carrying the alias in, the two null
check operators being flags, and the inherited default operator eq. -/
def stringFilter : FilterType :=
  ⟨[⟨lit "eq", none, false, .tstr⟩,
    ⟨lit "neq", none, false, .tstr⟩,
    ⟨lit "contains", none, false, .tstr⟩,
    ⟨lit "not_contains", none, false, .tstr⟩,
    ⟨lit "starts_with", none, false, .tstr⟩,
    ⟨lit "ends_with", none, false, .tstr⟩,
    ⟨lit "is_empty", none, true, .tstr⟩,
    ⟨lit "is_not_empty", none, true, .tstr⟩,
    ⟨lit "in_", some (lit "in"), false, .tstr⟩,
    ⟨lit "not_in", none, false, .tstr⟩],
   lit "eq"⟩

/-- IntFilter from fields.py: eight operator fields over int, the two
null checks being flags, default operator eq. -/
def intFilter : FilterType :=
  ⟨[⟨lit "eq", none, false, .tint⟩,
    ⟨lit "neq", none, false, .tint⟩,
    ⟨lit "gt", none, false, .tint⟩,
    ⟨lit "lt", none, false, .tint⟩,
    ⟨lit "gte", none, false, .tint⟩,
    ⟨lit "lte", none, false, .tint⟩,
    ⟨lit "is_empty", none, true, .tint⟩,
    ⟨lit "is_not_empty", none, true, .tint⟩],
   lit "eq"⟩

/-- A filter model class with a single string-filter attribute name,
as in the library's own docstring examples. -/
def nameCls : FilterCls := ⟨[⟨lit "name", .filt stringFilter⟩]⟩

/-- A filter model class with two int-filter attributes, used to
exhibit error aggregation across several failing fields. -/
def twoIntCls : FilterCls :=
  ⟨[⟨lit "age", .filt intFilter⟩, ⟨lit "score", .filt intFilter⟩]⟩

/-- Whether a deep-object kwarg key k would be written into the slot
for operator op of attribute attr by the deep-object decoder: its
double-underscore split has at least two segments, the first naming
the attribute and the second naming the operator. -/
def deepWritesTo (k attr op : PyStr) : Bool :=
  let sk := splitDunder k
  !(sk.length == 1) && sk.headD [] == attr && (sk.get? 1).getD [] == op

/-- The instance the delimited dependency returns for the single
attribute class nameCls when every decoded operator key is unknown to
StringFilter: all operator fields keep their defaults and the nested
fields-set is empty. -/
def c3CexInst : OuterInst :=
  ⟨[(lit "name", .ofilt
      ⟨[(lit "eq", .olist []),
        (lit "neq", .olist []),
        (lit "contains", .olist []),
        (lit "not_contains", .olist []),
        (lit "starts_with", .olist []),
        (lit "ends_with", .olist []),
        (lit "is_empty", .onone),
        (lit "is_not_empty", .onone),
        (lit "in_", .olist []),
        (lit "not_in", .olist [])],
       []⟩)],
   [lit "name"]⟩

theorem getLastD_indep {α : Type} {l : List α} (h : l ≠ []) (x y : α) :
    l.getLastD x = l.getLastD y := by
  cases l with
  | nil => exact absurd rfl h
  | cons a tl => simp only [List.getLastD_cons]

theorem splitChar_ne_nil (c : Char) (s : List Char) : splitChar c s ≠ [] := by
  cases s with
  | nil => simp [splitChar]
  | cons d ds =>
    simp only [splitChar]
    split
    · simp
    · split <;> simp

theorem splitChar_no {c : Char} {a : List Char} (h : containsChar c a = false) :
    splitChar c a = [a] := by
  induction a with
  | nil => rfl
  | cons d ds ih =>
    simp only [containsChar, List.any_cons, Bool.or_eq_false_iff,
      decide_eq_false_iff_not] at h
    have h2 : containsChar c ds = false := h.2
    simp only [splitChar, if_neg h.1]
    rw [ih h2]

theorem splitChar_boundary {c : Char} {a : List Char} (b : List Char)
    (h : containsChar c a = false) :
    splitChar c (a ++ c :: b) = a :: splitChar c b := by
  induction a with
  | nil => simp [splitChar]
  | cons d ds ih =>
    simp only [containsChar, List.any_cons, Bool.or_eq_false_iff,
      decide_eq_false_iff_not] at h
    have h2 : containsChar c ds = false := h.2
    simp only [List.cons_append, splitChar, List.append_eq, if_neg h.1]
    rw [ih h2]

theorem splitChar_two_le (c : Char) (x w : List Char) :
    2 ≤ (splitChar c (x ++ c :: w)).length := by
  induction x with
  | nil =>
    rw [splitChar_boundary w (by rfl)]
    have h1 : 1 ≤ (splitChar c w).length := by
      cases h : splitChar c w with
      | nil => exact absurd h (splitChar_ne_nil c w)
      | cons a l => simp
    simp only [List.length_cons]
    omega
  | cons d ds ih =>
    simp only [List.cons_append, splitChar, List.append_eq]
    split
    · simp only [List.length_cons]
      cases h : splitChar c (ds ++ c :: w) with
      | nil => exact absurd h (splitChar_ne_nil c _)
      | cons a l => simp
    · cases h : splitChar c (ds ++ c :: w) with
      | nil => exact absurd h (splitChar_ne_nil c _)
      | cons seg segs =>
        simp only [h]
        rw [h] at ih
        simp only [List.length_cons] at ih ⊢
        omega

theorem splitChar_last {c : Char} {w : List Char} (x : List Char)
    (hw : containsChar c w = false) :
    (splitChar c (x ++ c :: w)).getLastD [] = w := by
  induction x with
  | nil =>
    rw [splitChar_boundary w (by rfl), splitChar_no hw]
    rfl
  | cons d ds ih =>
    simp only [List.cons_append, splitChar, List.append_eq]
    split
    · rw [List.getLastD_cons]
      exact ih
    · cases h : splitChar c (ds ++ c :: w) with
      | nil => exact absurd h (splitChar_ne_nil c _)
      | cons seg segs =>
        rw [h] at ih
        cases segs with
        | nil =>
          have h2 := splitChar_two_le c ds w
          rw [h] at h2
          simp at h2
        | cons s2 ss =>
          rw [List.getLastD_cons] at ih
          rw [List.getLastD_cons]
          rw [getLastD_indep (by simp) (d :: seg) seg]
          exact ih

theorem splitDunder_ne_nil (s : List Char) : splitDunder s ≠ [] := by
  match s with
  | [] => simp [splitDunder]
  | [d] => simp [splitDunder]
  | d :: e :: rest =>
    simp only [splitDunder]
    split
    · simp
    · split <;> simp

theorem splitDunder_no : ∀ {a : List Char}, hasDunder a = false → splitDunder a = [a]
  | [], _ => rfl
  | [_d], _ => rfl
  | d :: e :: rest, h => by
    simp only [hasDunder, Bool.or_eq_false_iff, decide_eq_false_iff_not] at h
    have h2 : hasDunder (e :: rest) = false := h.2
    simp only [splitDunder, if_neg h.1]
    rw [splitDunder_no h2]

theorem splitDunder_boundary :
    ∀ {a : List Char} (b : List Char), hasDunder a = false → a.getLast? ≠ some '_' →
      splitDunder (a ++ '_' :: '_' :: b) = a :: splitDunder b
  | [], b, _, _ => by simp [splitDunder]
  | [d], b, _, h2 => by
    have hd : d ≠ '_' := by
      intro hc
      exact h2 (by simp [hc])
    simp only [List.cons_append, List.nil_append, splitDunder]
    rw [if_neg (by simp [hd]), if_pos (by simp)]
  | d :: e :: rest, b, h1, h2 => by
    simp only [hasDunder, Bool.or_eq_false_iff, decide_eq_false_iff_not] at h1
    have ih := splitDunder_boundary b h1.2
      (by
        intro hc
        apply h2
        rw [List.getLast?_cons_cons]
        exact hc)
    simp only [List.cons_append, splitDunder, List.append_eq, if_neg h1.1]
    rw [List.cons_append] at ih
    rw [ih]

theorem dget_nil {α : Type} (k : PyStr) : dget ([] : List (PyStr × α)) k = none := rfl

theorem dget_cons {α : Type} (k₁ k : PyStr) (v : α) (d : List (PyStr × α)) :
    dget ((k₁, v) :: d) k = if k₁ = k then some v else dget d k := by
  by_cases h : k₁ = k
  · simp [dget, List.find?, h]
  · simp only [dget, List.find?]
    have : (k₁ == k) = false := by simpa using h
    simp [this, h]

theorem dget_dset_self {α : Type} (d : List (PyStr × α)) (k : PyStr) (v : α) :
    dget (dset d k v) k = some v := by
  induction d with
  | nil => simp [dset, dget_cons]
  | cons p tl ih =>
    simp only [dset]
    split
    · simp [dget_cons]
    · rename_i h
      have hne : p.1 ≠ k := by simpa using h
      obtain ⟨pk, pv⟩ := p
      rw [dget_cons, if_neg hne]
      exact ih

theorem dget_dset_ne {α : Type} (d : List (PyStr × α)) (k k' : PyStr) (v : α)
    (h : k ≠ k') : dget (dset d k v) k' = dget d k' := by
  induction d with
  | nil => simp [dset, dget_cons, h, dget_nil]
  | cons p tl ih =>
    obtain ⟨pk, pv⟩ := p
    simp only [dset]
    split
    · rename_i hp
      have hp' : pk = k := by simpa using hp
      rw [dget_cons, if_neg h, dget_cons, if_neg (hp' ▸ h)]
    · rw [dget_cons, dget_cons]
      split
      · rfl
      · exact ih

theorem dget_isSome_of_mem {α : Type} {d : List (PyStr × α)} {p : PyStr × α}
    (h : p ∈ d) : (dget d p.1).isSome = true := by
  induction d with
  | nil => cases h
  | cons q tl ih =>
    obtain ⟨qk, qv⟩ := q
    rw [dget_cons]
    split
    · simp
    · rename_i hne
      rcases List.mem_cons.mp h with h1 | h2
      · exact absurd (congrArg Prod.fst h1).symm hne
      · exact ih h2

theorem mem_of_dget_eq_some {α : Type} {d : List (PyStr × α)} {k : PyStr} {v : α}
    (h : dget d k = some v) : (k, v) ∈ d := by
  induction d with
  | nil => simp [dget_nil] at h
  | cons q tl ih =>
    obtain ⟨qk, qv⟩ := q
    rw [dget_cons] at h
    split at h
    · rename_i he
      injection h with h
      subst he h
      exact List.mem_cons_self _ _
    · exact List.mem_cons_of_mem _ (ih h)

theorem prefixOf_append (a b : List Char) : a.isPrefixOf (a ++ b) = true := by
  induction a with
  | nil => simp [List.isPrefixOf]
  | cons d ds ih => simp [List.isPrefixOf, ih]

theorem prefixOf_ex {a s : List Char} (h : a.isPrefixOf s = true) :
    ∃ t, s = a ++ t := by
  induction a generalizing s with
  | nil => exact ⟨s, rfl⟩
  | cons d ds ih =>
    cases s with
    | nil => simp [List.isPrefixOf] at h
    | cons e es =>
      simp only [List.isPrefixOf, Bool.and_eq_true, beq_iff_eq] at h
      obtain ⟨t, ht⟩ := ih h.2
      exact ⟨t, by simp [h.1, ht]⟩

theorem colon_decomp {c : Char} :
    ∀ {a a' s t : List Char}, containsChar c a = false → containsChar c a' = false →
      a ++ c :: s = a' ++ c :: t → a = a' ∧ s = t
  | [], [], _, _, _, _, h => by simpa using h
  | [], e :: es, _, _, h1, h2, h => by
    rw [List.nil_append, List.cons_append] at h
    injection h with h c1
    simp [containsChar, h.symm] at h2
  | d :: ds, [], _, _, h1, h2, h => by
    rw [List.nil_append, List.cons_append] at h
    injection h with h c1
    simp [containsChar, h] at h1
  | d :: ds, e :: es, s, t, h1, h2, h => by
    rw [List.cons_append, List.cons_append] at h
    injection h with hde hrest
    simp only [containsChar, List.any_cons, Bool.or_eq_false_iff] at h1 h2
    have := @colon_decomp _ ds es s t h1.2 h2.2 hrest
    exact ⟨by rw [hde, this.1], this.2⟩

theorem find?_key_nodup {α : Type} (key : α → PyStr) {l : List α} {x : α}
    (hnd : (l.map key).Nodup) (hmem : x ∈ l) :
    l.find? (fun y => key y == key x) = some x := by
  induction l with
  | nil => cases hmem
  | cons a tl ih =>
    rw [List.find?_cons]
    split
    · rename_i hp
      have ha : key a = key x := by simpa using hp
      rcases List.mem_cons.mp hmem with h1 | h2
      · rw [h1]
      · exfalso
        have : key x ∈ tl.map key := List.mem_map_of_mem key h2
        rw [List.map_cons] at hnd
        exact (List.nodup_cons.mp hnd).1 (ha ▸ this)
    · rename_i hp
      have ha : key a ≠ key x := by simpa using hp
      rcases List.mem_cons.mp hmem with h1 | h2
      · exact absurd (congrArg key h1.symm) ha
      · rw [List.map_cons] at hnd
        exact ih (List.nodup_cons.mp hnd).2 h2

theorem filter_eq_single {α : Type} (key : α → PyStr) {l : List α} {x : α}
    (hnd : (l.map key).Nodup) (hmem : x ∈ l) (p : α → Bool)
    (hp : ∀ y ∈ l, p y = (key y == key x)) :
    l.filter p = [x] := by
  induction l with
  | nil => cases hmem
  | cons a tl ih =>
    rw [List.map_cons] at hnd
    have hnd1 := (List.nodup_cons.mp hnd).1
    have hnd2 := (List.nodup_cons.mp hnd).2
    rw [List.filter_cons]
    split
    · rename_i hpa
      rw [hp a (List.mem_cons_self a tl)] at hpa
      have ha : key a = key x := by simpa using hpa
      have hax : a = x := by
        rcases List.mem_cons.mp hmem with h1 | h2
        · exact h1.symm
        · exact absurd (ha ▸ List.mem_map_of_mem key h2) hnd1
      rw [hax]
      have : tl.filter p = [] := by
        apply List.filter_eq_nil_iff.mpr
        intro y hy
        rw [hp y (List.mem_cons_of_mem a hy)]
        intro hk
        have hk2 : key y = key x := by simpa using hk
        exact hnd1 (hax ▸ hk2 ▸ List.mem_map_of_mem key hy)
      rw [this]
    · rename_i hpa
      rw [hp a (List.mem_cons_self a tl)] at hpa
      have ha : key a ≠ key x := by simpa using hpa
      have hmem2 : x ∈ tl := by
        rcases List.mem_cons.mp hmem with h1 | h2
        · exact absurd (congrArg key h1.symm) ha
        · exact h2
      exact ih hnd2 hmem2 (fun y hy => hp y (List.mem_cons_of_mem a hy))

theorem lookup_nodup {ft : FilterType} {sf : SubField}
    (hnd : (ft.fields.map SubField.name).Nodup) (hmem : sf ∈ ft.fields) :
    ft.lookup sf.name = some sf :=
  find?_key_nodup SubField.name hnd hmem

theorem isFlag_of_mem {ft : FilterType} {sf : SubField}
    (hnd : (ft.fields.map SubField.name).Nodup) (hmem : sf ∈ ft.fields) :
    ft.isFlag sf.name = sf.flag := by
  unfold FilterType.isFlag
  rw [lookup_nodup hnd hmem]

theorem mem_of_lookup {ft : FilterType} {n : PyStr} {sf : SubField}
    (h : ft.lookup n = some sf) : sf ∈ ft.fields ∧ sf.name = n := by
  have hm := List.mem_of_find?_eq_some h
  have hp := List.find?_some h
  exact ⟨hm, by simpa using hp⟩

theorem dget_map_name {β : Type} (g : SubField → β) (l : List SubField) (n : PyStr) :
    dget (l.map (fun sf => (sf.name, g sf))) n =
      (l.find? (fun sf => sf.name == n)).map g := by
  induction l with
  | nil => rfl
  | cons a tl ih =>
    rw [List.map_cons, dget_cons, List.find?_cons]
    by_cases h : a.name = n
    · simp [h]
    · have hb : (a.name == n) = false := by simpa using h
      simp [h, hb, ih]

theorem mkBaseFilter_errs_nil {attr : PyStr} {ft : FilterType}
    {m : List (PyStr × OpEntry)}
    (h : ∀ sf ∈ ft.fields, ∀ v, dget m sf.key = some v → (validateSub attr sf v).1 = []) :
    (mkBaseFilter attr ft m).1 = [] := by
  simp only [mkBaseFilter]
  rw [List.flatten_eq_nil_iff]
  intro x hx
  obtain ⟨sf, hsf, hval⟩ := List.mem_map.mp hx
  cases hd : dget m sf.key with
  | none =>
    rw [hd] at hval
    exact hval.symm
  | some v =>
    rw [hd] at hval
    rw [← hval]
    exact h sf hsf v hd

theorem mkBaseFilter_vals_dget {attr : PyStr} {ft : FilterType}
    {m : List (PyStr × OpEntry)} {sf : SubField}
    (hnd : (ft.fields.map SubField.name).Nodup) (hmem : sf ∈ ft.fields) :
    dget (mkBaseFilter attr ft m).2.vals sf.name =
      some (match dget m sf.key with
            | none => sf.defaultVal
            | some v => (validateSub attr sf v).2) := by
  simp only [mkBaseFilter]
  rw [dget_map_name, find?_key_nodup SubField.name hnd hmem]
  rfl

theorem mkBaseFilter_present_iff (attr : PyStr) (ft : FilterType)
    (m : List (PyStr × OpEntry)) :
    (mkBaseFilter attr ft m).2.present = true ↔
      ∃ sf ∈ ft.fields, (dget m sf.key).isSome = true := by
  simp only [FilterInst.present, mkBaseFilter]
  constructor
  · intro h
    have hne : (ft.fields.filter
        (fun sf => (dget m sf.key).isSome)).map SubField.name ≠ [] := by
      intro hc
      rw [hc] at h
      simp at h
    rcases List.exists_mem_of_ne_nil _ hne with ⟨x, hx⟩
    obtain ⟨sf, hsf, _⟩ := List.mem_map.mp hx
    exact ⟨sf, (List.mem_filter.mp hsf).1, (List.mem_filter.mp hsf).2⟩
  · rintro ⟨sf, hsf, hd⟩
    have h1 : sf ∈ ft.fields.filter (fun sf => (dget m sf.key).isSome) :=
      List.mem_filter.mpr ⟨hsf, hd⟩
    have h2 := List.mem_map_of_mem SubField.name h1
    cases hni : (ft.fields.filter
        (fun sf => (dget m sf.key).isSome)).map SubField.name with
    | nil =>
      rw [hni] at h2
      cases h2
    | cons y ys => rfl

theorem bind_ok {α β : Type} (a : α) (f : α → DecodeResult β) :
    (DecodeResult.ok a >>= f) = f a := rfl

theorem decodeToken_value (ft : FilterType) (ops : List (PyStr × OpEntry))
    (op v : PyStr) (hopc : containsChar ':' op = false)
    (hvc : containsChar ':' v = false) (hflag : ft.isFlag op = false) :
    decodeToken ft ops (op ++ ':' :: v) = bucketAppend ops op v := by
  unfold decodeToken
  rw [splitChar_boundary v hopc, splitChar_no hvc]
  simp [hflag]

theorem decodeToken_flag (ft : FilterType) (ops : List (PyStr × OpEntry))
    (op v : PyStr) (hopc : containsChar ':' op = false)
    (hflag : ft.isFlag op = true) :
    decodeToken ft ops (op ++ ':' :: v) = .ok (dset ops op (.obool true)) := by
  unfold decodeToken
  rw [splitChar_boundary v hopc]
  simp [hflag]

theorem decodeToken_flag_bare (ft : FilterType) (ops : List (PyStr × OpEntry))
    (op : PyStr) (hopc : containsChar ':' op = false)
    (hflag : ft.isFlag op = true) :
    decodeToken ft ops op = .ok (dset ops op (.obool true)) := by
  unfold decodeToken
  rw [splitChar_no hopc]
  simp [hflag]

theorem decodeToken_bare (ft : FilterType) (ops : List (PyStr × OpEntry))
    (v : PyStr) (hvc : containsChar ':' v = false)
    (hvflag : ft.isFlag v = false) :
    decodeToken ft ops v = bucketAppend ops ft.default_operator v := by
  unfold decodeToken
  rw [splitChar_no hvc]
  simp [hvflag]

theorem decodeToken_multi (ft : FilterType) (ops : List (PyStr × OpEntry))
    (op u w : PyStr) (hopc : containsChar ':' op = false)
    (hwc : containsChar ':' w = false) (hflag : ft.isFlag op = false) :
    decodeToken ft ops (op ++ ':' :: (u ++ ':' :: w)) = bucketAppend ops op w := by
  unfold decodeToken
  rw [splitChar_boundary (u ++ ':' :: w) hopc]
  have hne := splitChar_ne_nil ':' (u ++ ':' :: w)
  have hlast2 : (op :: splitChar ':' (u ++ ':' :: w)).getLastD [] = w := by
    rw [List.getLastD_cons, getLastD_indep hne op [], splitChar_last u hwc]
  have hlen : ((op :: splitChar ':' (u ++ ':' :: w)).length == 1) = false := by
    cases hs : splitChar ':' (u ++ ':' :: w) with
    | nil => exact absurd hs hne
    | cons seg segs => simp
  simp only [List.headD_cons, hflag, Bool.false_eq_true, if_false, hlen, hlast2]

theorem ne_append_cons (a : List Char) (c : Char) (t : List Char) :
    (a == a ++ c :: t) = false := by
  have h : a ≠ a ++ c :: t := by
    intro h
    have := congrArg List.length h
    simp at this
  simp only [beq_eq_false_iff_ne, ne_eq]
  exact h

theorem delimDecode_single_token (ft : FilterType) (a tok : PyStr) :
    delimDecodeParams ⟨[⟨a, .filt ft⟩]⟩ [(a, .olist [tok])] =
      match decodeToken ft [] tok with
      | .ok ops => .ok [(a, .pdict ops)]
      | .err e => .err e := by
  simp only [delimDecodeParams, List.foldlM_cons, List.foldlM_nil, delimField]
  rw [dget_cons, if_pos rfl]
  simp only [Option.getD_some, decodeTokens, List.foldlM_cons, List.foldlM_nil]
  cases h : decodeToken ft [] tok with
  | ok ops =>
    simp only [h, bind_ok]
    rfl
  | err e => rfl

theorem deepDecode_single (ft : FilterType) (a opn : PyStr) (w : OpEntry)
    (hw : (w == .onone) = false)
    (had : hasDunder a = false) (hau : a.getLast? ≠ some '_')
    (hopd : hasDunder opn = false) :
    deepDecodeParams ⟨[⟨a, .filt ft⟩]⟩ [(a ++ '_' :: '_' :: opn, w)] =
      .ok [(a, .pdict [(opn, w)])] := by
  simp only [deepDecodeParams, deepInit, deepStep, List.foldl_cons,
    List.foldl_nil, List.foldlM_cons, List.foldlM_nil]
  have hattr : FilterCls.isFilterAttr ⟨[⟨a, .filt ft⟩]⟩ (a ++ '_' :: '_' :: opn) = false := by
    simp only [FilterCls.isFilterAttr, List.any_cons, List.any_nil,
      Bool.or_false]
    rw [ne_append_cons]
    simp
  have hcond : ¬(FilterCls.isFilterAttr ⟨[⟨a, .filt ft⟩]⟩ (a ++ '_' :: '_' :: opn) = true
      ∨ w = OpEntry.onone) := by
    rw [hattr]
    simp only [Bool.false_eq_true, false_or]
    intro hc
    rw [hc] at hw
    simp at hw
  rw [if_neg hcond]
  rw [splitDunder_boundary opn had hau, splitDunder_no hopd]
  have hl : (([a, opn] : List (List Char)).length == 1) = false := by simp
  rw [hl]
  simp [OuterField.isFilter, dget_cons, dset, bind_ok]
  rfl

theorem mkFilterErrors_single (ft : FilterType) (sf : SubField) (a : PyStr)
    (w : OpEntry) (hkeys : (ft.fields.map SubField.key).Nodup)
    (hmem : sf ∈ ft.fields) (hval : (validateSub a sf w).1 = []) :
    mkFilterErrors ⟨[⟨a, .filt ft⟩]⟩ [(a, .pdict [(sf.key, w)])] = [] := by
  have hside : ∀ sf' ∈ ft.fields, ∀ v, dget [(sf.key, w)] sf'.key = some v →
      (validateSub a sf' v).1 = [] := by
    intro sf' hmem' v hd
    rw [dget_cons] at hd
    split at hd
    · rename_i he
      injection hd with hd
      have hsf : sf' = sf :=
        List.inj_on_of_nodup_map hkeys hmem' hmem he.symm
      rw [hsf, ← hd]
      exact hval
    · simp [dget_nil] at hd
  simp only [mkFilterErrors, List.map_cons, List.map_nil, validateOuterField]
  rw [dget_cons, if_pos rfl]
  simp only [List.flatten, List.append_nil]
  exact mkBaseFilter_errs_nil hside

theorem runConstruct_single (ft : FilterType) (sf : SubField) (a : PyStr)
    (w : OpEntry) (hkeys : (ft.fields.map SubField.key).Nodup)
    (hmem : sf ∈ ft.fields) (hval : (validateSub a sf w).1 = []) :
    runConstruct ⟨[⟨a, .filt ft⟩]⟩ [(a, .pdict [(sf.key, w)])] =
      .success ⟨[(a, .ofilt (mkBaseFilter a ft [(sf.key, w)]).2)], [a]⟩ := by
  unfold runConstruct mkFilter
  rw [mkFilterErrors_single ft sf a w hkeys hmem hval]
  simp [validateOuterField, dget_cons, OuterField.isFilter]

/-- C1: for every filter attribute, every operator allowed for it, and
every raw value supported by both encodings, decoding the deep-object
kwarg attribute-dunder-op with the framework-extracted value and
decoding the delimited token op-colon-value produce equal validated
Filter Instances. -/
theorem c1_encoding_equivalence (ft : FilterType) (sf : SubField) (a v : PyStr)
    (dv : OpEntry)
    (hmem : sf ∈ ft.fields) (halias : sf.walias = none)
    (hnames : (ft.fields.map SubField.name).Nodup)
    (hkeys : (ft.fields.map SubField.key).Nodup)
    (hopc : containsChar ':' sf.name = false)
    (hvc : containsChar ':' v = false)
    (hopd : hasDunder sf.name = false)
    (had : hasDunder a = false) (hau : a.getLast? ≠ some '_')
    (hdv : wireDeepVal sf v = some dv) :
    ∃ i, delimDependency ⟨[⟨a, .filt ft⟩]⟩ [(a, .olist [sf.name ++ ':' :: v])] =
           .success i ∧
         deepDependency ⟨[⟨a, .filt ft⟩]⟩ [(a ++ '_' :: '_' :: sf.name, dv)] =
           .success i := by
  have hkey : sf.key = sf.name := by
    rw [SubField.key, halias]
    rfl
  have hflageq : ft.isFlag sf.name = sf.flag := isFlag_of_mem hnames hmem
  unfold wireDeepVal at hdv
  by_cases hf : sf.flag = true
  · rw [if_pos hf] at hdv
    split at hdv
    · rename_i hv
      injection hdv with hdv
      subst hdv
      have hdelim : delimDecodeParams ⟨[⟨a, .filt ft⟩]⟩
          [(a, .olist [sf.name ++ ':' :: v])] =
          .ok [(a, .pdict [(sf.name, .obool true)])] := by
        rw [delimDecode_single_token,
          decodeToken_flag ft [] sf.name v hopc (by rw [hflageq, hf])]
        rfl
      have hdeep := deepDecode_single ft a sf.name (.obool true) (by decide)
        had hau hopd
      have hvalok : (validateSub a sf (.obool true)).1 = [] := by
        unfold validateSub
        rw [if_pos hf]
      refine ⟨⟨[(a, .ofilt (mkBaseFilter a ft [(sf.key, .obool true)]).2)], [a]⟩,
        ?_, ?_⟩
      · unfold delimDependency
        rw [hdelim, show sf.name = sf.key from hkey.symm]
        exact runConstruct_single ft sf a (.obool true) hkeys hmem hvalok
      · unfold deepDependency
        rw [hdeep, show sf.name = sf.key from hkey.symm]
        exact runConstruct_single ft sf a (.obool true) hkeys hmem hvalok
    · exact absurd hdv (by simp)
  · have hf2 : sf.flag = false := by
      cases hfv : sf.flag
      · rfl
      · exact absurd hfv hf
    rw [if_neg hf] at hdv
    split at hdv
    · rename_i hvalid
      injection hdv with hdv
      subst hdv
      have hdelim : delimDecodeParams ⟨[⟨a, .filt ft⟩]⟩
          [(a, .olist [sf.name ++ ':' :: v])] =
          .ok [(a, .pdict [(sf.name, .olist [v])])] := by
        rw [delimDecode_single_token,
          decodeToken_value ft [] sf.name v hopc hvc (by rw [hflageq, hf2])]
        rfl
      have hdeep := deepDecode_single ft a sf.name (.olist [v]) (by simp)
        had hau hopd
      have hvalok : (validateSub a sf (.olist [v])).1 = [] := by
        unfold validateSub
        rw [if_neg hf]
        simp [show List.range 1 = [0] from rfl, List.filterMap_cons, List.filterMap_nil, hvalid]
      refine ⟨⟨[(a, .ofilt (mkBaseFilter a ft [(sf.key, .olist [v])]).2)], [a]⟩,
        ?_, ?_⟩
      · unfold delimDependency
        rw [hdelim, show sf.name = sf.key from hkey.symm]
        exact runConstruct_single ft sf a (.olist [v]) hkeys hmem hvalok
      · unfold deepDependency
        rw [hdeep, show sf.name = sf.key from hkey.symm]
        exact runConstruct_single ft sf a (.olist [v]) hkeys hmem hvalok
    · exact absurd hdv (by simp)

/-- Witness for C1 at the library's own example: attribute name with
StringFilter, operator eq, value shell. -/
theorem c1_encoding_equivalence_witness :
    ∃ i, delimDependency ⟨[⟨lit "name", .filt stringFilter⟩]⟩
           [(lit "name", .olist [lit "eq" ++ ':' :: lit "shell"])] = .success i ∧
         deepDependency ⟨[⟨lit "name", .filt stringFilter⟩]⟩
           [(lit "name" ++ '_' :: '_' :: lit "eq", .olist [lit "shell"])] =
           .success i :=
  c1_encoding_equivalence stringFilter ⟨lit "eq", none, false, .tstr⟩ (lit "name")
    (lit "shell") (.olist [lit "shell"])
    (by decide) rfl (by decide) (by decide) (by decide) (by decide) (by decide)
    (by decide) (by decide) (by decide)

/-- C2: evaluating the delimited decoder at the failing input
contains-colon-a-colon-b (first segment a non-flag operator, value
containing the delimiter): the code appends only the last
colon-separated segment b to the contains bucket, discarding the
middle segment a, instead of appending the entire remainder a-colon-b
as the claim and the spec's stated intent require. -/
theorem c2_last_segment_data_loss :
    decodeToken stringFilter [] (lit "contains:a:b") =
      .ok [(lit "contains", .olist [lit "b"])] ∧
    decodeToken stringFilter [] (lit "contains:a:b") ≠
      .ok [(lit "contains", .olist [lit "a:b"])] := by decide

/-- General form of the data-loss behavior: for a token whose first
segment is a non-flag operator, the decoder appends the last
colon-separated segment, coinciding with split-once semantics only
when the token contains exactly one delimiter. -/
theorem decodeToken_last_segment (ft : FilterType)
    (ops : List (PyStr × OpEntry)) (op u w : PyStr)
    (hopc : containsChar ':' op = false)
    (hwc : containsChar ':' w = false) (hflag : ft.isFlag op = false) :
    decodeToken ft ops (op ++ ':' :: w) = bucketAppend ops op w ∧
    decodeToken ft ops (op ++ ':' :: (u ++ ':' :: w)) = bucketAppend ops op w :=
  ⟨decodeToken_value ft ops op w hopc hwc hflag,
   decodeToken_multi ft ops op u w hopc hwc hflag⟩

/-- Counterexample for C4: a bare value that happens to name a flag
operator is decoded as that flag, not as a default-operator value, so
decoding is-underscore-empty differs from decoding
eq-colon-is-underscore-empty. -/
theorem c4_counterexample :
    decodeToken stringFilter [] (lit "is_empty") =
      .ok [(lit "is_empty", .obool true)] ∧
    decodeToken stringFilter [] (lit "eq:is_empty") =
      .ok [(lit "eq", .olist [lit "is_empty"])] ∧
    decodeToken stringFilter [] (lit "is_empty") ≠
      decodeToken stringFilter [] (lit "eq:is_empty") := by decide

/-- C4 amended: for every raw value without the delimiter that does
not name a registered flag operator, decoding the bare value equals
decoding default-operator-colon-value, provided the default operator
itself is delimiter-free and not a flag. -/
theorem c4_amended_default_equiv (ft : FilterType) (ops : List (PyStr × OpEntry))
    (v : PyStr) (hvc : containsChar ':' v = false) (hvflag : ft.isFlag v = false)
    (hdc : containsChar ':' ft.default_operator = false)
    (hdflag : ft.isFlag ft.default_operator = false) :
    decodeToken ft ops v = decodeToken ft ops (ft.default_operator ++ ':' :: v) := by
  rw [decodeToken_bare ft ops v hvc hvflag,
    decodeToken_value ft ops ft.default_operator v hdc hvc hdflag]

/-- Witness for the amended C4 at StringFilter with the value shell. -/
theorem c4_amended_default_equiv_witness :
    decodeToken stringFilter [] (lit "shell") =
      decodeToken stringFilter [] (stringFilter.default_operator ++ ':' :: lit "shell") :=
  c4_amended_default_equiv stringFilter [] (lit "shell")
    (by decide) (by decide) (by decide) (by decide)

/-- Counterexample for C3: an unknown operator in a delimited token is
decoded into the operations dict, but Filter Instance construction
succeeds and silently ignores the unknown key (pydantic default extra
handling): the dependency returns an instance with an empty fields-set
instead of raising a 422 validation error. -/
theorem c3_counterexample :
    delimDependency nameCls [(lit "name", .olist [lit "bogus:x"])] =
      .success c3CexInst ∧
    c3CexInst.anyFilter = false := by decide

/-- C3 amended: an unknown operator token is rejected with a 422 by
the wire validation pattern the signature synthesizer attaches to the
parameter, before the decoder runs; when such a mapping nevertheless
reaches construction, the unknown key is silently ignored, as the
counterexample shows. -/
theorem c3_amended_pattern_rejects (operators : List PyStr) (op v : PyStr)
    (hop : op ∉ operators) (hopsc : ∀ o ∈ operators, containsChar ':' o = false)
    (hopc : containsChar ':' op = false) :
    patternAccepts operators (op ++ ':' :: v) = false := by
  unfold patternAccepts
  have hcc : containsChar ':' (op ++ ':' :: v) = true := by
    simp [containsChar]
  rw [hcc]
  simp only [Bool.not_true, Bool.and_false, Bool.false_or]
  rw [List.any_eq_false]
  intro o ho
  intro hcontra
  have h1 : (o ++ [':']).isPrefixOf (op ++ ':' :: v) = true :=
    (Bool.and_eq_true_iff.mp hcontra).1
  obtain ⟨t, ht⟩ := prefixOf_ex h1
  have ht2 : op ++ ':' :: v = o ++ ':' :: t := by simpa using ht
  have hdec := colon_decomp hopc (hopsc o ho) ht2
  apply hop
  rw [hdec.1]
  exact ho

/-- Witness for the amended C3: the token bogus-colon-x fails the
pattern built from StringFilter's default operators. -/
theorem c3_amended_pattern_rejects_witness :
    patternAccepts stringFilter.defaultOperators
      (lit "bogus" ++ ':' :: lit "x") = false :=
  c3_amended_pattern_rejects stringFilter.defaultOperators (lit "bogus")
    (lit "x") (by decide) (by decide) (by decide)

/-- Counterexample for C6: the wire pattern rejects a delimited token
whose value itself contains the delimiter, although the operator is
allowed and the value non-empty. -/
theorem c6_counterexample :
    (lit "contains") ∈ stringFilter.defaultOperators ∧
    containsChar ':' (lit "a:b") = true ∧
    patternAccepts stringFilter.defaultOperators
      (lit "contains" ++ ':' :: lit "a:b") = false := by decide

/-- C6 amended: the validation pattern accepts operator-colon-value
for every allowed operator exactly for non-empty values that contain
no delimiter; values containing the delimiter are rejected at the
wire, contrary to the original claim. -/
theorem c6_amended_pattern_accepts (operators : List PyStr) (op v : PyStr)
    (hmem : op ∈ operators) (hv : v ≠ []) (hvc : containsChar ':' v = false) :
    patternAccepts operators (op ++ ':' :: v) = true := by
  have hsplit : op ++ ':' :: v = (op ++ [':']) ++ v := by simp
  have hpre : (op ++ [':']).isPrefixOf ((op ++ [':']) ++ v) = true :=
    prefixOf_append _ _
  have hdrop : ((op ++ [':']) ++ v).drop (op.length + 1) = v := by
    have hlen : (op ++ [':']).length = op.length + 1 := by simp
    rw [← hlen, List.drop_left]
  unfold patternAccepts
  rw [hsplit, Bool.or_eq_true]
  right
  rw [List.any_eq_true]
  refine ⟨op, hmem, ?_⟩
  simp only [hpre, Bool.true_and, hdrop, hvc, Bool.not_false, Bool.and_true]
  cases v with
  | nil => exact absurd rfl hv
  | cons c cs => rfl

/-- Witness for the amended C6: contains-colon-shell passes the
pattern built from StringFilter's default operators. -/
theorem c6_amended_pattern_accepts_witness :
    patternAccepts stringFilter.defaultOperators
      (lit "contains" ++ ':' :: lit "shell") = true :=
  c6_amended_pattern_accepts stringFilter.defaultOperators (lit "contains")
    (lit "shell") (by decide) (by decide) (by decide)

/-- C10: a non-null kwarg whose key contains the double-underscore
separator but whose first segment is not a declared filter attribute
makes the deep-object dependency raise an uncaught KeyError instead of
returning a structured 422 error. -/
theorem c10_keyerror_on_undeclared_prefix :
    deepDependency nameCls [(lit "foo__bar", .ostr (lit "x"))] =
      .pyError (.keyError (lit "foo")) := by decide

/-- C9: a route none of whose resolved dependency query parameters
carries the deep-object marker is left completely unchanged by
update_deep_objects, wherever it sits in the app's route list,
including its existing openapi_extra documentation metadata. -/
theorem c9_frame_no_deep_params (deps : List (List QP))
    (extra : Option (List DocParam)) (rs1 rs2 : List AppRoute)
    (h : ∀ dep ∈ deps, ∀ qp ∈ dep, qp.deep = none) :
    update_deep_objects (rs1 ++ (AppRoute.api deps extra) :: rs2) =
      update_deep_objects rs1 ++
        (AppRoute.api deps extra) :: update_deep_objects rs2 := by
  have hempty : routeDocParams deps = [] := by
    unfold routeDocParams
    rw [List.flatten_eq_nil_iff]
    intro x hx
    obtain ⟨dep, hdep, hxe⟩ := List.mem_map.mp hx
    rw [← hxe]
    rw [List.filterMap_eq_nil_iff]
    intro qp hqp
    rw [h dep hdep qp hqp]
    rfl
  unfold update_deep_objects
  rw [List.map_append, List.map_cons]
  have hroute : updateRoute (AppRoute.api deps extra) = AppRoute.api deps extra := by
    simp only [updateRoute]
    rw [hempty]
    rfl
  rw [hroute]

/-- Witness for C9: a one-route app whose only dependency parameter is
an ordinary query parameter, with pre-existing documentation metadata,
is returned unchanged. -/
theorem c9_frame_no_deep_params_witness :
    update_deep_objects ([] ++ (AppRoute.api [[⟨lit "q", none⟩]]
        (some [⟨lit "old", "query", "form", [], []⟩])) :: []) =
      update_deep_objects [] ++ (AppRoute.api [[⟨lit "q", none⟩]]
        (some [⟨lit "old", "query", "form", [], []⟩])) :: update_deep_objects [] :=
  c9_frame_no_deep_params [[⟨lit "q", none⟩]]
    (some [⟨lit "old", "query", "form", [], []⟩]) [] [] (by decide)

/-- C8: whenever Filter Instance construction from the decoded params
fails validation, each dependency raises the 422 error whose detail is
exactly the aggregated error list, which contains every individual
field's validation errors (never only the first failing field, and
never a partial success). -/
theorem c8_error_aggregation (fc : FilterCls)
    (kwargs1 kwargs2 : List (PyStr × OpEntry))
    (params1 params2 : List (PyStr × ParamVal)) (es1 es2 : List FieldError)
    (h1 : delimDecodeParams fc kwargs1 = .ok params1)
    (he1 : mkFilter fc params1 = .failed es1)
    (h2 : deepDecodeParams fc kwargs2 = .ok params2)
    (he2 : mkFilter fc params2 = .failed es2) :
    delimDependency fc kwargs1 = .httpError ⟨422, es1⟩ ∧
    deepDependency fc kwargs2 = .httpError ⟨422, es2⟩ ∧
    es1 = mkFilterErrors fc params1 ∧ es2 = mkFilterErrors fc params2 ∧
    (∀ f ∈ fc.fields, ∀ e ∈ (validateOuterField f params1).1, e ∈ es1) ∧
    (∀ f ∈ fc.fields, ∀ e ∈ (validateOuterField f params2).1, e ∈ es2) := by
  have hes1 : es1 = mkFilterErrors fc params1 := by
    simp only [mkFilter] at he1
    split at he1
    · cases he1
    · injection he1 with he1
      exact he1.symm
  have hes2 : es2 = mkFilterErrors fc params2 := by
    simp only [mkFilter] at he2
    split at he2
    · cases he2
    · injection he2 with he2
      exact he2.symm
  refine ⟨?_, ?_, hes1, hes2, ?_, ?_⟩
  · unfold delimDependency
    rw [h1]
    show runConstruct fc params1 = .httpError ⟨422, es1⟩
    unfold runConstruct
    rw [he1]
  · unfold deepDependency
    rw [h2]
    show runConstruct fc params2 = .httpError ⟨422, es2⟩
    unfold runConstruct
    rw [he2]
  · intro f hf e he
    rw [hes1]
    exact List.mem_flatten.mpr
      ⟨(validateOuterField f params1).1,
       List.mem_map_of_mem (fun f => (validateOuterField f params1).1) hf, he⟩
  · intro f hf e he
    rw [hes2]
    exact List.mem_flatten.mpr
      ⟨(validateOuterField f params2).1,
       List.mem_map_of_mem (fun f => (validateOuterField f params2).1) hf, he⟩

/-- Witness for C8: two int-filter attributes each given a non-integer
raw value; both dependencies return the 422 error whose detail lists
both fields' coercion errors. -/
theorem c8_error_aggregation_witness :
    delimDependency twoIntCls
        [(lit "age", .olist [lit "gt:abc"]), (lit "score", .olist [lit "xyz"])] =
      .httpError ⟨422,
        [⟨[lit "age", lit "gt", lit "0"], "type_error"⟩,
         ⟨[lit "score", lit "eq", lit "0"], "type_error"⟩]⟩ ∧
    deepDependency twoIntCls
        [(lit "age__gt", .olist [lit "abc"]), (lit "score__eq", .olist [lit "x"])] =
      .httpError ⟨422,
        [⟨[lit "age", lit "gt", lit "0"], "type_error"⟩,
         ⟨[lit "score", lit "eq", lit "0"], "type_error"⟩]⟩ ∧
    [⟨[lit "age", lit "gt", lit "0"], "type_error"⟩,
     ⟨[lit "score", lit "eq", lit "0"], "type_error"⟩] =
      mkFilterErrors twoIntCls
        [(lit "age", .pdict [(lit "gt", .olist [lit "abc"])]),
         (lit "score", .pdict [(lit "eq", .olist [lit "xyz"])])] := by
  have h := c8_error_aggregation twoIntCls
    [(lit "age", .olist [lit "gt:abc"]), (lit "score", .olist [lit "xyz"])]
    [(lit "age__gt", .olist [lit "abc"]), (lit "score__eq", .olist [lit "x"])]
    [(lit "age", .pdict [(lit "gt", .olist [lit "abc"])]),
     (lit "score", .pdict [(lit "eq", .olist [lit "xyz"])])]
    [(lit "age", .pdict [(lit "gt", .olist [lit "abc"])]),
     (lit "score", .pdict [(lit "eq", .olist [lit "x"])])]
    [⟨[lit "age", lit "gt", lit "0"], "type_error"⟩,
     ⟨[lit "score", lit "eq", lit "0"], "type_error"⟩]
    [⟨[lit "age", lit "gt", lit "0"], "type_error"⟩,
     ⟨[lit "score", lit "eq", lit "0"], "type_error"⟩]
    (by decide) (by decide) (by decide) (by decide)
  exact ⟨h.1, h.2.1, h.2.2.1⟩

/-- C7: for a Filter Instance built from decoded params whose operator
dicts satisfy the Decoded Filter Value invariant (keys drawn from the
attribute's declared operators, each slot a flag set to True or a
non-empty value bucket), the answer to whether any filter is present
at all is true exactly when some filter attribute's decoded operator
dict contains a non-empty slot; in particular an attribute whose
operator dict is empty is not a present filter. -/
theorem c7_presence_iff (fc : FilterCls) (params : List (PyStr × ParamVal))
    (inst : OuterInst) (hok : mkFilter fc params = .built inst)
    (hinv : ∀ f ∈ fc.fields,
      match f.kind, dget params f.name with
      | .filt ft, some (.pdict m) =>
        ∀ p ∈ m, (ft.fields.any (fun sf => sf.key == p.1)) = true ∧
          p.2.isNonemptyBucket = true
      | _, _ => True) :
    inst.anyFilter = true ↔
      ∃ f ∈ fc.fields, ∃ ft m, f.kind = .filt ft ∧
        dget params f.name = some (.pdict m) ∧
        ∃ p ∈ m, p.2.isNonemptyBucket = true := by
  have hinst : inst =
      ⟨fc.fields.map (fun f => (validateOuterField f params).2.1),
       (fc.fields.filter (fun f => (validateOuterField f params).2.2)).map
         OuterField.name⟩ := by
    simp only [mkFilter] at hok
    split at hok
    · injection hok with h
      exact h.symm
    · cases hok
  subst hinst
  constructor
  · intro hany
    unfold OuterInst.anyFilter at hany
    rw [List.any_eq_true] at hany
    obtain ⟨x, hx, hpx⟩ := hany
    obtain ⟨f, hf, hfx⟩ := List.mem_map.mp hx
    cases hk : f.kind with
    | plain =>
      exfalso
      unfold validateOuterField at hfx
      rw [hk] at hfx
      cases hd : dget params f.name with
      | some v =>
        rw [hd] at hfx
        rw [← hfx] at hpx
        simp at hpx
      | none =>
        rw [hd] at hfx
        rw [← hfx] at hpx
        simp at hpx
    | filt ft =>
      cases hd : dget params f.name with
      | none =>
        exfalso
        unfold validateOuterField at hfx
        rw [hk, hd] at hfx
        rw [← hfx] at hpx
        simp at hpx
      | some v =>
        cases v with
        | pdict m =>
          refine ⟨f, hf, ft, m, hk, hd, ?_⟩
          unfold validateOuterField at hfx
          rw [hk, hd] at hfx
          rw [← hfx] at hpx
          simp only at hpx
          rw [mkBaseFilter_present_iff] at hpx
          obtain ⟨sf, hsf, hdg⟩ := hpx
          cases hv : dget m sf.key with
          | none =>
            rw [hv] at hdg
            cases hdg
          | some w =>
            have hmemm : (sf.key, w) ∈ m := mem_of_dget_eq_some hv
            have hi := hinv f hf
            rw [hk, hd] at hi
            exact ⟨(sf.key, w), hmemm, (hi _ hmemm).2⟩
        | pnone =>
          exfalso
          unfold validateOuterField at hfx
          rw [hk, hd] at hfx
          rw [← hfx] at hpx
          simp at hpx
        | pbool b =>
          exfalso
          unfold validateOuterField at hfx
          rw [hk, hd] at hfx
          rw [← hfx] at hpx
          simp at hpx
        | pstr s =>
          exfalso
          unfold validateOuterField at hfx
          rw [hk, hd] at hfx
          rw [← hfx] at hpx
          simp at hpx
        | plist vs =>
          exfalso
          unfold validateOuterField at hfx
          rw [hk, hd] at hfx
          rw [← hfx] at hpx
          simp at hpx
  · rintro ⟨f, hf, ft, m, hk, hd, p, hp, hne⟩
    unfold OuterInst.anyFilter
    rw [List.any_eq_true]
    refine ⟨(validateOuterField f params).2.1, List.mem_map_of_mem _ hf, ?_⟩
    unfold validateOuterField
    rw [hk, hd]
    show (mkBaseFilter f.name ft m).2.present = true
    rw [mkBaseFilter_present_iff]
    have hi := hinv f hf
    rw [hk, hd] at hi
    have hkey := (hi p hp).1
    rw [List.any_eq_true] at hkey
    obtain ⟨sf, hsf, hbeq⟩ := hkey
    have hkeq : sf.key = p.1 := by simpa using hbeq
    refine ⟨sf, hsf, ?_⟩
    rw [hkeq]
    exact dget_isSome_of_mem hp

/-- Witness for C7 at a one-attribute class whose decoded params hold
one non-empty contains bucket. -/
theorem c7_presence_iff_witness :
    (⟨[(lit "name", .ofilt
        ⟨[(lit "eq", .olist []),
          (lit "neq", .olist []),
          (lit "contains", .olist [lit "shell"]),
          (lit "not_contains", .olist []),
          (lit "starts_with", .olist []),
          (lit "ends_with", .olist []),
          (lit "is_empty", .onone),
          (lit "is_not_empty", .onone),
          (lit "in_", .olist []),
          (lit "not_in", .olist [])],
         [lit "contains"]⟩)],
      [lit "name"]⟩ : OuterInst).anyFilter = true ↔
      ∃ f ∈ nameCls.fields, ∃ ft m, f.kind = .filt ft ∧
        dget [(lit "name",
          ParamVal.pdict [(lit "contains", OpEntry.olist [lit "shell"])])]
          f.name = some (.pdict m) ∧
        ∃ p ∈ m, p.2.isNonemptyBucket = true :=
  c7_presence_iff nameCls
    [(lit "name", .pdict [(lit "contains", .olist [lit "shell"])])]
    ⟨[(lit "name", .ofilt
        ⟨[(lit "eq", .olist []),
          (lit "neq", .olist []),
          (lit "contains", .olist [lit "shell"]),
          (lit "not_contains", .olist []),
          (lit "starts_with", .olist []),
          (lit "ends_with", .olist []),
          (lit "is_empty", .onone),
          (lit "is_not_empty", .onone),
          (lit "in_", .olist []),
          (lit "not_in", .olist [])],
         [lit "contains"]⟩)],
      [lit "name"]⟩
    (by decide)
    (by
      intro f hf
      have hf2 : f = ⟨lit "name", .filt stringFilter⟩ := by
        simpa [nameCls] using hf
      subst hf2
      exact (by decide :
        ∀ p ∈ [(lit "contains", OpEntry.olist [lit "shell"])],
          (stringFilter.fields.any fun sf => sf.key == p.1) = true ∧
            p.2.isNonemptyBucket = true))

theorem toParam_ne_pdict (v : OpEntry) (m : List (PyStr × OpEntry)) :
    v.toParam ≠ .pdict m := by
  cases v <;> simp [OpEntry.toParam]

theorem bucketAppend_slot_ne {ops ops1 : List (PyStr × OpEntry)}
    {op fil fname : PyStr} (hne : op ≠ fname)
    (h : bucketAppend ops op fil = .ok ops1) :
    dget ops1 fname = dget ops fname := by
  unfold bucketAppend at h
  split at h
  · injection h with h
    rw [← h, dget_dset_ne _ _ _ _ hne]
  · injection h with h
    rw [← h, dget_dset_ne _ _ _ _ hne]
  · cases h

theorem decodeToken_flag_slot (ft : FilterType) (fname : PyStr)
    (ops ops1 : List (PyStr × OpEntry)) (t : PyStr)
    (hfl : ft.isFlag fname = true) (hdfl : ft.isFlag ft.default_operator = false)
    (hstep : decodeToken ft ops t = .ok ops1)
    (hin : dget ops fname = none ∨ dget ops fname = some (.obool true)) :
    dget ops1 fname = none ∨ dget ops1 fname = some (.obool true) := by
  unfold decodeToken at hstep
  by_cases hf : ft.isFlag ((splitChar ':' t).headD []) = true
  · rw [if_pos hf] at hstep
    injection hstep with hstep
    rw [← hstep]
    by_cases he : (splitChar ':' t).headD [] = fname
    · rw [he, dget_dset_self]
      right
      rfl
    · rw [dget_dset_ne _ _ _ _ he]
      exact hin
  · rw [if_neg hf] at hstep
    simp only [] at hstep
    have hopx : (if ((splitChar ':' t).length == 1) = true then ft.default_operator
        else (splitChar ':' t).headD []) ≠ fname := by
      split
      · intro hc
        rw [hc] at hdfl
        rw [hdfl] at hfl
        cases hfl
      · intro hc
        rw [hc] at hf
        exact hf hfl
    rw [bucketAppend_slot_ne hopx hstep]
    exact hin

theorem decodeToken_absent_slot (ft : FilterType) (fname : PyStr)
    (ops ops1 : List (PyStr × OpEntry)) (t : PyStr)
    (hfl : ft.isFlag fname = true) (hdfl : ft.isFlag ft.default_operator = false)
    (hht : (splitChar ':' t).headD [] ≠ fname)
    (hstep : decodeToken ft ops t = .ok ops1)
    (hin : dget ops fname = none) : dget ops1 fname = none := by
  unfold decodeToken at hstep
  by_cases hf : ft.isFlag ((splitChar ':' t).headD []) = true
  · rw [if_pos hf] at hstep
    injection hstep with hstep
    rw [← hstep, dget_dset_ne _ _ _ _ hht]
    exact hin
  · rw [if_neg hf] at hstep
    simp only [] at hstep
    have hopx : (if ((splitChar ':' t).length == 1) = true then ft.default_operator
        else (splitChar ':' t).headD []) ≠ fname := by
      split
      · intro hc
        rw [hc] at hdfl
        rw [hdfl] at hfl
        cases hfl
      · exact hht
    rw [bucketAppend_slot_ne hopx hstep]
    exact hin

theorem decodeTokens_fold_flag_slot (ft : FilterType) (fname : PyStr)
    (hfl : ft.isFlag fname = true) (hdfl : ft.isFlag ft.default_operator = false) :
    ∀ (ts : List PyStr) (ops ops' : List (PyStr × OpEntry)),
      (dget ops fname = none ∨ dget ops fname = some (.obool true)) →
      ts.foldlM (decodeToken ft) ops = .ok ops' →
      dget ops' fname = none ∨ dget ops' fname = some (.obool true) := by
  intro ts
  induction ts with
  | nil =>
    intro ops ops' hin hfold
    rw [List.foldlM_nil] at hfold
    injection hfold with hfold
    rw [← hfold]
    exact hin
  | cons t ts ih =>
    intro ops ops' hin hfold
    rw [List.foldlM_cons] at hfold
    cases hstep : decodeToken ft ops t with
    | err e =>
      rw [hstep] at hfold
      cases hfold
    | ok ops1 =>
      rw [hstep, bind_ok] at hfold
      exact ih ops1 ops'
        (decodeToken_flag_slot ft fname ops ops1 t hfl hdfl hstep hin) hfold

theorem decodeTokens_fold_absent (ft : FilterType) (fname : PyStr)
    (hfl : ft.isFlag fname = true) (hdfl : ft.isFlag ft.default_operator = false) :
    ∀ (ts : List PyStr) (ops ops' : List (PyStr × OpEntry)),
      (∀ t ∈ ts, (splitChar ':' t).headD [] ≠ fname) →
      dget ops fname = none →
      ts.foldlM (decodeToken ft) ops = .ok ops' →
      dget ops' fname = none := by
  intro ts
  induction ts with
  | nil =>
    intro ops ops' _ hin hfold
    rw [List.foldlM_nil] at hfold
    injection hfold with hfold
    rw [← hfold]
    exact hin
  | cons t ts ih =>
    intro ops ops' hts hin hfold
    rw [List.foldlM_cons] at hfold
    cases hstep : decodeToken ft ops t with
    | err e =>
      rw [hstep] at hfold
      cases hfold
    | ok ops1 =>
      rw [hstep, bind_ok] at hfold
      exact ih ops1 ops' (fun t' ht' => hts t' (List.mem_cons_of_mem _ ht'))
        (decodeToken_absent_slot ft fname ops ops1 t hfl hdfl
          (hts t (List.mem_cons_self _ _)) hstep hin) hfold

theorem deep_fold_slot (fc : FilterCls) (a fname : PyStr)
    (Q : Option OpEntry → Prop) :
    ∀ (kwargs : List (PyStr × OpEntry)) (params params' : List (PyStr × ParamVal)),
      (∀ kv ∈ kwargs, deepWritesTo kv.1 a fname = true →
        kv.2 = .onone ∨ Q (some kv.2)) →
      (∀ m, dget params a = some (.pdict m) → Q (dget m fname)) →
      kwargs.foldlM (deepStep fc) params = .ok params' →
      ∀ m, dget params' a = some (.pdict m) → Q (dget m fname) := by
  intro kwargs
  induction kwargs with
  | nil =>
    intro params params' _ hinv hfold
    rw [List.foldlM_nil] at hfold
    injection hfold with hfold
    rw [← hfold]
    exact hinv
  | cons kv kws ih =>
    intro params params' hkv hinv hfold
    rw [List.foldlM_cons] at hfold
    cases hstep : deepStep fc params kv with
    | err e =>
      rw [hstep] at hfold
      cases hfold
    | ok params1 =>
      rw [hstep, bind_ok] at hfold
      refine ih params1 params'
        (fun kv' h' hw => hkv kv' (List.mem_cons_of_mem _ h') hw) ?_ hfold
      intro m hm
      unfold deepStep at hstep
      split at hstep
      · injection hstep with hstep
        exact hinv m (by rw [hstep]; exact hm)
      · rename_i hskip
        simp only [] at hstep
        split at hstep
        · rename_i hlen
          injection hstep with hstep
          by_cases hka : kv.1 = a
          · exfalso
            rw [← hstep, hka, dget_dset_self] at hm
            injection hm with hm
            exact toParam_ne_pdict kv.2 m hm
          · rw [← hstep, dget_dset_ne _ _ _ _ hka] at hm
            exact hinv m hm
        · rename_i hlen
          split at hstep
          · rename_i m0 hdg0
            injection hstep with hstep
            by_cases hk0 : (splitDunder kv.1).headD [] = a
            · rw [← hstep, hk0, dget_dset_self] at hm
              injection hm with hm
              injection hm with hm
              by_cases hk1 : ((splitDunder kv.1).get? 1).getD [] = fname
              · rw [← hm, hk1, dget_dset_self]
                have hw : deepWritesTo kv.1 a fname = true := by
                  have h1 : ((splitDunder kv.1).length == 1) = false :=
                    Bool.eq_false_iff.mpr hlen
                  have h2 : ((splitDunder kv.1).headD [] == a) = true := by
                    simpa using hk0
                  have h3 : (((splitDunder kv.1).get? 1).getD [] == fname) = true := by
                    simpa using hk1
                  show (!((splitDunder kv.1).length == 1) &&
                      ((splitDunder kv.1).headD [] == a) &&
                      (((splitDunder kv.1).get? 1).getD [] == fname)) = true
                  rw [h1, h2, h3]
                  rfl
                rcases hkv kv (List.mem_cons_self _ _) hw with hno | hq
                · exact absurd (Or.inr hno) hskip
                · exact hq
              · rw [← hm, dget_dset_ne _ _ _ _ hk1]
                apply hinv m0
                rw [← hk0]
                exact hdg0
            · rw [← hstep, dget_dset_ne _ _ _ _ hk0] at hm
              exact hinv m hm
          · cases hstep
          · cases hstep

/-- C5: for a flag operator of a filter attribute, presence of the
bare flag token (delimited) or of the extracted true parameter
(deep object) sets the flag to True; absence of the token or parameter
leaves the flag unset (None and outside the fields-set); and neither
decoder ever stores a list of values in a flag operator's slot. -/
theorem c5_flag_semantics (ft : FilterType) (sf : SubField) (a : PyStr)
    (hnames : (ft.fields.map SubField.name).Nodup)
    (hkeys : (ft.fields.map SubField.key).Nodup)
    (hmem : sf ∈ ft.fields) (hflag : sf.flag = true) (halias : sf.walias = none)
    (hnc : containsChar ':' sf.name = false)
    (hopd : hasDunder sf.name = false)
    (had : hasDunder a = false) (hau : a.getLast? ≠ some '_')
    (hdfl : ft.isFlag ft.default_operator = false) :
    (∀ ops, decodeToken ft ops sf.name = .ok (dset ops sf.name (.obool true))) ∧
    (∃ i fi,
      deepDependency ⟨[⟨a, .filt ft⟩]⟩ [(a ++ '_' :: '_' :: sf.name, .obool true)] =
        .success i ∧
      dget i.vals a = some (.ofilt fi) ∧
      dget fi.vals sf.name = some (.obool true) ∧ sf.name ∈ fi.fieldsSet) ∧
    (∀ ts ops', (∀ t ∈ ts, (splitChar ':' t).headD [] ≠ sf.name) →
      decodeTokens ft ts = .ok ops' → dget ops' sf.name = none) ∧
    (∀ kwargs params' m,
      (∀ kv ∈ kwargs, deepWritesTo kv.1 a sf.name = false) →
      deepDecodeParams ⟨[⟨a, .filt ft⟩]⟩ kwargs = .ok params' →
      dget params' a = some (.pdict m) → dget m sf.name = none) ∧
    (∀ attr m, dget m sf.key = none →
      dget (mkBaseFilter attr ft m).2.vals sf.name = some .onone ∧
      sf.name ∉ (mkBaseFilter attr ft m).2.fieldsSet) ∧
    (∀ ts ops' xs, decodeTokens ft ts = .ok ops' →
      dget ops' sf.name ≠ some (.olist xs)) ∧
    (∀ kwargs params' m xs,
      (∀ kv ∈ kwargs, deepWritesTo kv.1 a sf.name = true → kv.2 = .obool true) →
      deepDecodeParams ⟨[⟨a, .filt ft⟩]⟩ kwargs = .ok params' →
      dget params' a = some (.pdict m) → dget m sf.name ≠ some (.olist xs)) := by
  have hfl : ft.isFlag sf.name = true := by
    rw [isFlag_of_mem hnames hmem]
    exact hflag
  have hkey : sf.key = sf.name := by
    rw [SubField.key, halias]
    rfl
  refine ⟨?_, ?_, ?_, ?_, ?_, ?_, ?_⟩
  · intro ops
    exact decodeToken_flag_bare ft ops sf.name hnc hfl
  · have hdeep := deepDecode_single ft a sf.name (.obool true) (by decide)
      had hau hopd
    have hvalok : (validateSub a sf (.obool true)).1 = [] := by
      unfold validateSub
      rw [if_pos hflag]
    refine ⟨⟨[(a, .ofilt (mkBaseFilter a ft [(sf.key, .obool true)]).2)], [a]⟩,
      (mkBaseFilter a ft [(sf.key, .obool true)]).2, ?_, ?_, ?_, ?_⟩
    · unfold deepDependency
      rw [hdeep, show sf.name = sf.key from hkey.symm]
      exact runConstruct_single ft sf a (.obool true) hkeys hmem hvalok
    · rw [dget_cons, if_pos rfl]
    · rw [mkBaseFilter_vals_dget hnames hmem, dget_cons, if_pos rfl]
      show some (validateSub a sf (.obool true)).2 = some (.obool true)
      unfold validateSub
      rw [if_pos hflag]
    · show sf.name ∈ (mkBaseFilter a ft [(sf.key, .obool true)]).2.fieldsSet
      simp only [mkBaseFilter]
      apply List.mem_map_of_mem
      apply List.mem_filter.mpr
      refine ⟨hmem, ?_⟩
      rw [dget_cons, if_pos rfl]
      rfl
  · intro ts ops' hts hdec
    unfold decodeTokens at hdec
    exact decodeTokens_fold_absent ft sf.name hfl hdfl ts [] ops' hts rfl hdec
  · intro kwargs params' m hkw hdec hdg
    unfold deepDecodeParams at hdec
    have hinit : ∀ m0, dget (deepInit ⟨[⟨a, .filt ft⟩]⟩) a =
        some (.pdict m0) → (dget m0 sf.name : Option OpEntry) = none := by
      intro m0 h0
      have : deepInit ⟨[⟨a, FieldKind.filt ft⟩]⟩ = [(a, ParamVal.pdict [])] := rfl
      rw [this, dget_cons, if_pos rfl] at h0
      injection h0 with h0
      injection h0 with h0
      rw [← h0]
      rfl
    exact deep_fold_slot ⟨[⟨a, .filt ft⟩]⟩ a sf.name (fun o => o = none)
      kwargs (deepInit ⟨[⟨a, .filt ft⟩]⟩) params'
      (fun kv hkvm hw => absurd hw (by rw [hkw kv hkvm]; simp))
      hinit hdec m hdg
  · intro attr m hnone
    constructor
    · rw [mkBaseFilter_vals_dget hnames hmem, hnone]
      unfold SubField.defaultVal
      rw [if_pos hflag]
    · intro hc
      simp only [mkBaseFilter] at hc
      obtain ⟨x, hx, hxe⟩ := List.mem_map.mp hc
      have hxm := List.mem_filter.mp hx
      have hxs : x = sf :=
        List.inj_on_of_nodup_map hnames hxm.1 hmem hxe
      rw [hxs, hnone] at hxm
      cases hxm.2
  · intro ts ops' xs hdec
    unfold decodeTokens at hdec
    have h := decodeTokens_fold_flag_slot ft sf.name hfl hdfl ts [] ops'
      (Or.inl rfl) hdec
    intro hc
    rcases h with h | h
    · rw [h] at hc
      cases hc
    · rw [h] at hc
      cases hc
  · intro kwargs params' m xs hkw hdec hdg
    unfold deepDecodeParams at hdec
    have hinit : ∀ m0, dget (deepInit ⟨[⟨a, .filt ft⟩]⟩) a =
        some (.pdict m0) →
        (∀ ys, (dget m0 sf.name : Option OpEntry) ≠ some (.olist ys)) := by
      intro m0 h0 ys
      have : deepInit ⟨[⟨a, FieldKind.filt ft⟩]⟩ = [(a, ParamVal.pdict [])] := rfl
      rw [this, dget_cons, if_pos rfl] at h0
      injection h0 with h0
      injection h0 with h0
      rw [← h0]
      simp [dget_nil]
    have h := deep_fold_slot ⟨[⟨a, .filt ft⟩]⟩ a sf.name
      (fun o => ∀ ys, o ≠ some (.olist ys))
      kwargs (deepInit ⟨[⟨a, .filt ft⟩]⟩) params'
      (fun kv hkvm hw => Or.inr (by
        rw [hkw kv hkvm hw]
        intro ys hc
        cases hc))
      hinit hdec m hdg
    exact h xs

/-- Witness for C5 at StringFilter's is-empty flag on attribute name:
the bare delimited token sets the flag and the deep-object true
parameter yields an instance with the flag set. -/
theorem c5_flag_semantics_witness :
    decodeToken stringFilter [] (lit "is_empty") =
      .ok (dset [] (lit "is_empty") (.obool true)) ∧
    (∃ i fi, deepDependency ⟨[⟨lit "name", .filt stringFilter⟩]⟩
        [(lit "name" ++ '_' :: '_' :: lit "is_empty", .obool true)] =
        .success i ∧
      dget i.vals (lit "name") = some (.ofilt fi) ∧
      dget fi.vals (lit "is_empty") = some (.obool true) ∧
      lit "is_empty" ∈ fi.fieldsSet) :=
  have h := c5_flag_semantics stringFilter ⟨lit "is_empty", none, true, .tstr⟩
    (lit "name") (by decide) (by decide) (by decide) rfl rfl (by decide)
    (by decide) (by decide) (by decide) (by decide)
  ⟨h.1 [], h.2.1⟩
